import Mathlib

/-!
Verification development for the TOTP viewer repository.

The Go core in `src/main.go` (functions `decodeBase32`, `generateHOTP`,
`generateTOTP`, `validateTOTP`, and the window parsing of `handleValidate`)
is embedded shallowly below.  Go strings are modeled as lists of bytes
(natural numbers below 256); Go's `int`/`int64` values are modeled as `Int`,
`uint64` values as `Nat` kept below `2 ^ 64`, and fallible operations return
`Option`.  The SHA-1 and HMAC primitives invoked through `crypto/sha1` and
`crypto/hmac` are embedded by their standard definitions (RFC 3174 and
RFC 2104) and are validated against the RFC 4226 Appendix D reference
vectors in the theorems below.
-/

namespace Spec2Proof

/-- Reduction of a machine word to 32 bits. -/
def w32 (x : Nat) : Nat := x % 4294967296

/-- Left rotation of a 32-bit word by `k` positions. -/
def rotl (k x : Nat) : Nat := w32 (x <<< k) ||| (x >>> (32 - k))

/-- Bitwise complement of a 32-bit word. -/
def not32 (x : Nat) : Nat := x ^^^ 4294967295

/-- Round function of SHA-1: choice, parity, majority, parity. -/
def sha1F (t b c d : Nat) : Nat :=
  if t < 20 then (b &&& c) ||| (not32 b &&& d)
  else if t < 40 then b ^^^ c ^^^ d
  else if t < 60 then (b &&& c) ||| (b &&& d) ||| (c &&& d)
  else b ^^^ c ^^^ d

/-- Round constants of SHA-1. -/
def sha1K (t : Nat) : Nat :=
  if t < 20 then 0x5A827999
  else if t < 40 then 0x6ED9EBA1
  else if t < 60 then 0x8F1BBCDC
  else 0xCA62C1D6

/-- State of the SHA-1 compression function: five 32-bit words. -/
abbrev Sha1St := Nat × Nat × Nat × Nat × Nat

/-- Message-schedule extension of SHA-1; `acc` holds the schedule words
produced so far, most recent first, and `fuel` counts the words still to
be produced. -/
def sha1Extend : Nat → List Nat → List Nat
  | 0, acc => acc
  | fuel + 1, acc =>
      sha1Extend fuel
        (rotl 1 (acc.getD 2 0 ^^^ acc.getD 7 0 ^^^ acc.getD 13 0 ^^^ acc.getD 15 0) :: acc)

/-- One SHA-1 compression round at round index `t` with schedule word `w`. -/
def sha1Round (t w : Nat) (st : Sha1St) : Sha1St :=
  (w32 (rotl 5 st.1 + sha1F t st.2.1 st.2.2.1 st.2.2.2.1 + st.2.2.2.2 + sha1K t + w),
   st.1, rotl 30 st.2.1, st.2.2.1, st.2.2.2.1)

/-- Folding the schedule words through the round function, starting at
round index `t`. -/
def sha1Rounds (t : Nat) (ws : List Nat) (st : Sha1St) : Sha1St :=
  match ws with
  | [] => st
  | w :: rest => sha1Rounds (t + 1) rest (sha1Round t w st)

/-- Grouping of bytes into 32-bit big-endian words; `fuel` bounds the number
of words produced. -/
def wordsOfBytes : Nat → List Nat → List Nat
  | 0, _ => []
  | _, [] => []
  | fuel + 1, a :: b :: c :: d :: rest =>
      ((a <<< 24) ||| (b <<< 16) ||| (c <<< 8) ||| d) :: wordsOfBytes fuel rest
  | _ + 1, _ => []

/-- SHA-1 compression of a single 64-byte block into the running state. -/
def sha1Compress (h : Sha1St) (block : List Nat) : Sha1St :=
  let st := sha1Rounds 0 ((sha1Extend 64 (wordsOfBytes 16 block).reverse).reverse) h
  (w32 (h.1 + st.1), w32 (h.2.1 + st.2.1), w32 (h.2.2.1 + st.2.2.1),
   w32 (h.2.2.2.1 + st.2.2.2.1), w32 (h.2.2.2.2 + st.2.2.2.2))

/-- Big-endian serialization of a 64-bit value as 8 bytes, as produced by
Go `binary.Write` with `binary.BigEndian` on a `uint64`. -/
def be8 (v : Nat) : List Nat :=
  [(v >>> 56) % 256, (v >>> 48) % 256, (v >>> 40) % 256, (v >>> 32) % 256,
   (v >>> 24) % 256, (v >>> 16) % 256, (v >>> 8) % 256, v % 256]

/-- SHA-1 message padding: a 0x80 byte, zeros up to 56 mod 64, then the bit
length as 8 bytes big-endian. -/
def sha1Pad (msg : List Nat) : List Nat :=
  msg ++ 128 :: List.replicate ((119 - msg.length % 64) % 64) 0 ++ be8 (8 * msg.length)

/-- Splitting a byte sequence into 64-byte blocks; `fuel` bounds the number
of blocks produced. -/
def chunks64 : Nat → List Nat → List (List Nat)
  | 0, _ => []
  | _, [] => []
  | fuel + 1, l => l.take 64 :: chunks64 fuel (l.drop 64)

/-- Serialization of one 32-bit word as 4 big-endian bytes. -/
def w32Bytes (w : Nat) : List Nat :=
  [(w >>> 24) &&& 255, (w >>> 16) &&& 255, (w >>> 8) &&& 255, w &&& 255]

/-- SHA-1 of a byte sequence (RFC 3174), the primitive reached through Go
`crypto/sha1`. -/
def sha1 (msg : List Nat) : List Nat :=
  let padded := sha1Pad msg
  let h := (chunks64 padded.length padded).foldl sha1Compress
    (0x67452301, 0xEFCDAB89, 0x98BADCFE, 0x10325476, 0xC3D2E1F0)
  w32Bytes h.1 ++ w32Bytes h.2.1 ++ w32Bytes h.2.2.1 ++ w32Bytes h.2.2.2.1 ++
    w32Bytes h.2.2.2.2

/-- HMAC-SHA1 (RFC 2104) as instantiated by Go `hmac.New(sha1.New, key)`
with the SHA-1 block size of 64 bytes. -/
def hmacSha1 (key msg : List Nat) : List Nat :=
  let k0 := if 64 < key.length then sha1 key else key
  let kp := k0 ++ List.replicate (64 - k0.length) 0
  sha1 ((kp.map fun b => b ^^^ 0x5C) ++ sha1 ((kp.map fun b => b ^^^ 0x36) ++ msg))

/-- Decimal rendering of `n` zero-padded to width 6.  This models Go
`fmt.Sprintf("%06d", n)` as well as JS `String(n).padStart(6, "0")` for
arguments below 1000000, which are the only arguments the generators
produce (they always pass a value reduced mod 1000000). -/
def pad6 (n : Nat) : String :=
  String.mk [Nat.digitChar (n / 100000 % 10), Nat.digitChar (n / 10000 % 10),
    Nat.digitChar (n / 1000 % 10), Nat.digitChar (n / 100 % 10),
    Nat.digitChar (n / 10 % 10), Nat.digitChar (n % 10)]

/-- HOTP generator `generateHOTP` from `src/main.go`: HMAC-SHA1 over the
big-endian counter, dynamic truncation (Go's `int` casts and `& 0xFF`
masks kept as written), reduction mod 1000000, and zero-padded decimal
rendering. -/
def generateHOTP (secretBytes : List Nat) (counter : Nat) : String :=
  let sum := hmacSha1 secretBytes (be8 counter)
  let offset := sum.getLastD 0 &&& 0x0F
  let value := ((sum.getD offset 0 &&& 0x7F) <<< 24) |||
    ((sum.getD (offset + 1) 0 &&& 0xFF) <<< 16) |||
    ((sum.getD (offset + 2) 0 &&& 0xFF) <<< 8) |||
    (sum.getD (offset + 3) 0 &&& 0xFF)
  pad6 (value % 1000000)

/-- ASCII uppercasing of one byte; byte-level model of `strings.ToUpper`
as it acts on the byte strings relevant here. -/
def goUpper (c : Nat) : Nat := if 97 ≤ c ∧ c ≤ 122 then c - 32 else c

/-- Decode map of `base32.StdEncoding`: the alphabet `A`-`Z`, `2`-`7` maps
to 0..31 and every other byte to the invalid marker 255 (0xFF). -/
def decodeMapStd (c : Nat) : Nat :=
  if 65 ≤ c ∧ c ≤ 90 then c - 65
  else if 50 ≤ c ∧ c ≤ 55 then c - 24
  else 255

/-- Inner 8-symbol loop of the Go `encoding/base32` decoder for one
quantum: `j` is the current symbol index, `fuel` the remaining symbol
slots (callers pass `8` and `0`), `dbuf` the symbol values read so far.
On success it returns the number of data symbols (`dlen`), the symbol
values, the unread remainder, and whether a padding run ended the input;
errors of the Go code become `none`. -/
def readQuantum : Nat → Nat → List Nat → List Nat → Option (Nat × List Nat × List Nat × Bool)
  | 0, _, src, dbuf => some (8, dbuf, src, false)
  | fuel + 1, j, src, dbuf =>
    match src with
    | [] => none
    | c :: rest =>
      if c = 61 ∧ 2 ≤ j ∧ rest.length < 8 then
        if rest.length + j < 7 then none
        else if (List.range (7 - j)).all
            (fun k => !(decide (k < rest.length)) || (rest.getD k 0 == 61)) then
          if j = 1 ∨ j = 3 ∨ j = 6 then none else some (j, dbuf, rest, true)
        else none
      else
        if decodeMapStd c = 255 then none
        else readQuantum fuel (j + 1) rest (dbuf ++ [decodeMapStd c])

/-- Shift-left on a Go byte value truncates to 8 bits. -/
def byteShl (x k : Nat) : Nat := (x <<< k) % 256

/-- Packing of the symbol values of one quantum into output bytes,
following the switch with fallthrough of the Go `encoding/base32` decoder
(absent symbol slots read as 0). -/
def quantumBytes (dlen : Nat) (d : List Nat) : List Nat :=
  let b0 := byteShl (d.getD 0 0) 3 ||| (d.getD 1 0) >>> 2
  let b1 := byteShl (d.getD 1 0) 6 ||| byteShl (d.getD 2 0) 1 ||| (d.getD 3 0) >>> 4
  let b2 := byteShl (d.getD 3 0) 4 ||| (d.getD 4 0) >>> 1
  let b3 := byteShl (d.getD 4 0) 7 ||| byteShl (d.getD 5 0) 2 ||| (d.getD 6 0) >>> 3
  let b4 := byteShl (d.getD 6 0) 5 ||| (d.getD 7 0)
  if dlen = 8 then [b0, b1, b2, b3, b4]
  else if dlen = 7 then [b0, b1, b2, b3]
  else if dlen = 5 then [b0, b1, b2]
  else if dlen = 4 then [b0, b1]
  else if dlen = 2 then [b0]
  else []

/-- Outer quantum loop of the Go `encoding/base32` decoder: it runs while
input remains and no padding run was seen; `fuel` bounds the number of
quanta (callers pass the input length, enough for the whole input). -/
def decodeLoop : Nat → List Nat → Option (List Nat)
  | _, [] => some []
  | 0, _ => none
  | fuel + 1, src =>
    match readQuantum 8 0 src [] with
    | none => none
    | some (dlen, d, rest, stop) =>
      let bytes := quantumBytes dlen d
      if stop then some bytes
      else match decodeLoop fuel rest with
        | none => none
        | some bs => some (bytes ++ bs)

/-- `DecodeString` of `base32.StdEncoding`: carriage returns and newlines
are removed, then the input is decoded quantum by quantum. -/
def stdDecodeString (s : List Nat) : Option (List Nat) :=
  let t := s.filter fun c => !(c == 10 || c == 13)
  decodeLoop t.length t

/-- `decodeBase32` from `src/main.go`: remove spaces, uppercase, right-pad
with `=` to a multiple of 8 characters, and decode with
`base32.StdEncoding`. -/
def decodeBase32 (secret : List Nat) : Option (List Nat) :=
  let s1 := (secret.filter fun c => !(c == 32)).map goUpper
  let s2 := if s1.length % 8 = 0 then s1
    else s1 ++ List.replicate (8 - s1.length % 8) 61
  stdDecodeString s2

/-- Effective input of `decodeBase32`: the bytes that survive both the
space stripping of `decodeBase32` and the newline stripping of the
underlying decoder. -/
def effectiveInput (secret : List Nat) : List Nat :=
  ((secret.filter fun c => !(c == 32)).map goUpper).filter fun c => !(c == 10 || c == 13)

/-- StepSize constant from `src/main.go`. -/
def StepSize : Int := 30

/-- Conversion of a Go `int64` value to `uint64` (reduction mod `2 ^ 64`),
modeled on `Int`/`Nat`. -/
def uint64OfInt (x : Int) : Nat := (x % 18446744073709551616).toNat

/-- Counter derivation `uint64(t.Unix() / StepSize)` of `generateTOTP`
(Go integer division truncates toward zero). -/
def totpCounter (t : Int) : Nat := uint64OfInt (Int.tdiv t StepSize)

/-- `generateTOTP` from `src/main.go`, with the wall-clock instant passed
explicitly as Unix seconds; the error return is modeled as `none`. -/
def generateTOTP (secret : List Nat) (t : Int) : Option String :=
  (decodeBase32 secret).map fun secretBytes => generateHOTP secretBytes (totpCounter t)

/-- Two's-complement reduction of an integer into the `int64` range
`[-2 ^ 63, 2 ^ 63)`: the value Go's wrapping `int64` arithmetic produces on
overflow (negation and increment below use it). -/
def int64Wrap (x : Int) : Int :=
  (x + 9223372036854775808) % 18446744073709551616 - 9223372036854775808

/-- Probe loop of `validateTOTP`: `for i := -windowSteps; i <= windowSteps;
i++`, comparing the generated code of each probed counter with the
candidate.  The increment wraps in `int64` exactly as Go's `i++` does (at
`i = 2 ^ 63 - 1` the next index is `-2 ^ 63`).  The result is `some` of the
Go return value when the loop exits within `fuel` iterations, and `none`
otherwise; the whole loop state is `i`, which advances deterministically
with period `2 ^ 64`, so a run that has not exited after `2 ^ 64`
iterations repeats its states forever, and with the fuel `2 ^ 64` passed by
`validateTOTP` the value `none` holds exactly when the Go loop never
terminates. -/
def probeLoop (key : List Nat) (passcode : String) (cur w i : Int) :
    Nat → Option Bool
  | 0 => none
  | fuel + 1 =>
    if i ≤ w then
      if generateHOTP key (uint64OfInt (cur + i)) = passcode then some true
      else probeLoop key passcode cur w (int64Wrap (i + 1)) fuel
    else some false

/-- `validateTOTP` from `src/main.go`, with the current wall-clock instant
passed explicitly as Unix seconds.  `windowSteps` is an `int64` value (its
callers keep it in `[-2 ^ 63, 2 ^ 63)`), and the initial loop index
`-windowSteps` is computed with `int64` wrap: Go's negation of
`-2 ^ 63` yields `-2 ^ 63` again, so that window probes one counter.
`some b` means the Go function returns `b`; `none` means its loop never
terminates (possible only at `windowSteps = 2 ^ 63 - 1`, where the loop
condition holds for every `int64` index). -/
def validateTOTP (passcode : String) (secret : List Nat) (windowSteps : Int)
    (now : Int) : Option Bool :=
  match decodeBase32 secret with
  | none => some false
  | some secretBytes =>
    let currentCounter := Int.tdiv now StepSize
    probeLoop secretBytes passcode currentCounter windowSteps
      (int64Wrap (-windowSteps)) 18446744073709551616

/-- `strconv.Atoi` semantics: optional sign, at least one digit, all
decimal digits, and the value must fit a 64-bit int (out-of-range input is
an error, hence `none`). -/
def goAtoi (s : List Nat) : Option Int :=
  let core : Bool → List Nat → Option Int := fun neg digits =>
    if digits = [] then none
    else if digits.all (fun d => decide (48 ≤ d) && decide (d ≤ 57)) then
      let n : Nat := digits.foldl (fun a d => a * 10 + (d - 48)) 0
      let v : Int := if neg then -(n : Int) else (n : Int)
      if -9223372036854775808 ≤ v ∧ v < 9223372036854775808 then some v else none
    else none
  match s with
  | [] => none
  | c :: rest =>
    if c = 45 then core true rest
    else if c = 43 then core false rest
    else core false s

/-- Window parsing of `handleValidate`: the default is 1, replaced by any
integer `strconv.Atoi` accepts for a nonempty query value. -/
def windowStepsOf (windowStr : List Nat) : Int :=
  if windowStr = [] then 1
  else match goAtoi windowStr with
    | some v => v
    | none => 1

/-- Dynamic truncation exactly as the specification words it (RFC 4226):
offset from the low nibble of the last digest byte (`digest[19]`), then
the 31-bit value from four digest bytes with the top bit masked off. -/
def dynamicTruncate (digest : List Nat) : Nat :=
  let offset := digest.getD 19 0 &&& 0x0F
  ((digest.getD offset 0 &&& 0x7F) <<< 24) ||| ((digest.getD (offset + 1) 0) <<< 16) |||
    ((digest.getD (offset + 2) 0) <<< 8) ||| (digest.getD (offset + 3) 0)

/-- Floor-based counter derivation as the specification words it:
`floor(unixSeconds / StepSize)`, then conversion to the unsigned counter. -/
def floorCounter (t : Int) : Nat := uint64OfInt (Int.fdiv t StepSize)

/-- MSB-first 5-bit accumulator described by the specification: `vals` are
5-bit symbol values, `acc` is the sliding bit buffer holding `nbits` bits,
and a byte is emitted (top 8 bits first) whenever at least 8 bits are
available. -/
def accumBits : List Nat → Nat → Nat → List Nat
  | [], _, _ => []
  | v :: vs, acc, nbits =>
    let acc2 := acc * 32 + v
    let n2 := nbits + 5
    if 8 ≤ n2 then (acc2 >>> (n2 - 8)) :: accumBits vs (acc2 % 2 ^ (n2 - 8)) (n2 - 8)
    else accumBits vs acc2 n2

/-- Whitespace bytes under the claim reading in which all whitespace is
stripped before decoding (tab, LF, VT, FF, CR, space). -/
def isWhitespace (c : Nat) : Bool :=
  c == 9 || c == 10 || c == 11 || c == 12 || c == 13 || c == 32

/-- Claim-side variant of `decodeBase32` that strips all whitespace rather
than only spaces, used to compare the claim wording with the
implementation. -/
def decodeBase32Claim (secret : List Nat) : Option (List Nat) :=
  let s1 := (secret.filter fun c => !(isWhitespace c)).map goUpper
  let s2 := if s1.length % 8 = 0 then s1
    else s1 ++ List.replicate (8 - s1.length % 8) 61
  stdDecodeString s2

/-- ToInt32 conversion applied by the JS bitwise operators. -/
def toInt32 (x : Int) : Int := (x + 2147483648) % 4294967296 - 2147483648

/-- JS expression `t & 0xff` on an integral value: ToInt32 of `t`, then the
low byte (the low 8 bits of `t mod 2^32`). -/
def jsAnd255 (t : Int) : Nat := (t % 4294967296).toNat &&& 255

/-- JS expression `t >> 8` on an integral value: ToInt32, then arithmetic
right shift by 8, which is floor division by 256. -/
def jsShr8 (t : Int) : Int := Int.fdiv (toInt32 t) 256

/-- Counter serialization loop of `functions/index.js`: for `i` from 7 down
to 0, `counterBytes[i] = tempCounter & 0xff` and then `tempCounter =
Math.floor(tempCounter / 256)` (exact for integral JS numbers). -/
def jsCounterBytesDiv : Nat → Nat → List Nat
  | 0, _ => []
  | fuel + 1, t => jsCounterBytesDiv fuel (t / 256) ++ [jsAnd255 (t : Int)]

/-- Counter serialization loop of the browser-embedded `generateTOTP`: for
`i` from 7 down to 0, `msg[i] = tempCounter & 0xff` and then `tempCounter =
tempCounter >> 8` (a 32-bit signed shift). -/
def jsCounterBytesShr : Nat → Int → List Nat
  | 0, _ => []
  | fuel + 1, t => jsCounterBytesShr fuel (jsShr8 t) ++ [jsAnd255 t]

/-- HMAC-SHA1 truncation of `generateTOTP` in `functions/index.js`, given
key bytes and an integral counter; the web-crypto HMAC-SHA1 is the same
primitive `hmacSha1`. -/
def jsGenerateFn (keyBytes : List Nat) (counter : Nat) : String :=
  let hm := hmacSha1 keyBytes (jsCounterBytesDiv 8 counter)
  let offset := hm.getLastD 0 &&& 0x0F
  let binCode := (((hm.getD offset 0 &&& 0x7F) <<< 24) |||
    ((hm.getD (offset + 1) 0 &&& 0xFF) <<< 16) |||
    ((hm.getD (offset + 2) 0 &&& 0xFF) <<< 8) |||
    (hm.getD (offset + 3) 0 &&& 0xFF)) % 1000000
  pad6 binCode

/-- HMAC-SHA1 truncation of the browser-embedded `generateTOTP`, given key
bytes and an integral counter. -/
def jsGenerateBrowser (keyBytes : List Nat) (counter : Nat) : String :=
  let hm := hmacSha1 keyBytes (jsCounterBytesShr 8 (counter : Int))
  let offset := hm.getLastD 0 &&& 0x0F
  let otp := (((hm.getD offset 0 &&& 0x7F) <<< 24) |||
    ((hm.getD (offset + 1) 0 &&& 0xFF) <<< 16) |||
    ((hm.getD (offset + 2) 0 &&& 0xFF) <<< 8) |||
    (hm.getD (offset + 3) 0 &&& 0xFF)) % 1000000
  pad6 otp

/-- Byte string of the secret `GEZDGNBVGY3TQOJQ` named by the
specification. -/
def vecSecret16 : List Nat := [71, 69, 90, 68, 71, 78, 66, 86, 71, 89, 51, 84, 81, 79, 74, 81]

/-- Byte string of the secret `GEZDGNBVGY3TQOJQGEZDGNBVGY3TQOJQ`, the
Base32 encoding of the 20-byte ASCII key `12345678901234567890`. -/
def vecSecret32 : List Nat := vecSecret16 ++ vecSecret16

/-- ASCII bytes of `1234567890` (10 bytes). -/
def asciiKey10 : List Nat := [49, 50, 51, 52, 53, 54, 55, 56, 57, 48]

/-- ASCII bytes of `12345678901234567890`, the RFC 4226 Appendix D key. -/
def rfcKey20 : List Nat := asciiKey10 ++ asciiKey10

/-- Byte string of `not-base32!!!`. -/
def notB32 : List Nat := [110, 111, 116, 45, 98, 97, 115, 101, 51, 50, 33, 33, 33]

/-! ### Helper lemmas -/

/-- Bitwise or of values occupying disjoint bit ranges is addition. -/
theorem or_eq_add (a b m k : Nat) (hm : m = 2 ^ k) (ha : a % m = 0) (hb : b < m) :
    a ||| b = a + b := by
  subst hm
  obtain ⟨q, rfl⟩ : ∃ q, a = 2 ^ k * q :=
    ⟨a / 2 ^ k, (Nat.mul_div_cancel' (Nat.dvd_of_mod_eq_zero ha)).symm⟩
  apply Nat.eq_of_testBit_eq
  intro i
  rw [Nat.testBit_lor, Nat.testBit_mul_pow_two_add q hb i]
  rcases Nat.lt_or_ge i k with hik | hik
  · rw [if_pos hik]
    have h0 : (2 ^ k * q + 0).testBit i = false := by
      rw [Nat.testBit_mul_pow_two_add q (by positivity) i, if_pos hik]
      simp
    rw [Nat.add_zero] at h0
    rw [h0]
    simp
  · rw [if_neg (by omega)]
    have h0 : (2 ^ k * q + 0).testBit i = q.testBit (i - k) := by
      rw [Nat.testBit_mul_pow_two_add q (by positivity) i, if_neg (by omega)]
    rw [Nat.add_zero] at h0
    rw [h0, Nat.testBit_lt_two_pow (Nat.lt_of_lt_of_le hb (Nat.pow_le_pow_right (by norm_num) hik))]
    simp

/-- Masking with 255 is reduction mod 256. -/
theorem and255 (x : Nat) : x &&& 255 = x % 256 := Nat.and_pow_two_sub_one_eq_mod x 8

/-- Masking with 127 is reduction mod 128. -/
theorem and127 (x : Nat) : x &&& 127 = x % 128 := Nat.and_pow_two_sub_one_eq_mod x 7

/-- Masking with 15 is reduction mod 16. -/
theorem and15 (x : Nat) : x &&& 15 = x % 16 := Nat.and_pow_two_sub_one_eq_mod x 4

/-- Element lookup with a default does not depend on the default when the
index is in range. -/
theorem getD_default_irrel (l : List Nat) (i d d2 : Nat) (h : i < l.length) :
    l.getD i d = l.getD i d2 := by
  rw [List.getD_eq_getElem?_getD, List.getD_eq_getElem?_getD, List.getElem?_eq_getElem h]
  simp

/-- Last-element lookup as indexed lookup. -/
theorem getLastD_eq_getD (l : List Nat) (d : Nat) (h : l ≠ []) :
    l.getLastD d = l.getD (l.length - 1) d := by
  induction l generalizing d with
  | nil => exact absurd rfl h
  | cons b t ih =>
    rcases eq_or_ne t [] with rfl | ht
    · simp [List.getLastD_cons]
    · have h1 : 0 < t.length := List.length_pos.mpr ht
      rw [List.getLastD_cons, ih b ht]
      have hlen : (b :: t).length - 1 = (t.length - 1) + 1 := by
        simp [List.length_cons]
        omega
      rw [hlen, List.getD_cons_succ]
      exact getD_default_irrel t _ b d (by omega)

/-- Elements of one serialized word are bytes. -/
theorem w32Bytes_lt (w : Nat) : ∀ b ∈ w32Bytes w, b < 256 := by
  intro b hb
  simp [w32Bytes] at hb
  rcases hb with rfl | rfl | rfl | rfl
  all_goals rw [and255]
  all_goals omega

/-- A SHA-1 digest has 20 bytes. -/
theorem sha1_length (msg : List Nat) : (sha1 msg).length = 20 := by
  simp [sha1, w32Bytes]

/-- All elements of a SHA-1 digest are bytes. -/
theorem sha1_bytes_lt (msg : List Nat) : ∀ b ∈ sha1 msg, b < 256 := by
  intro b hb
  simp only [sha1, List.mem_append] at hb
  rcases hb with (((hb | hb) | hb) | hb) | hb
  all_goals exact w32Bytes_lt _ _ hb

/-- An HMAC-SHA1 digest has 20 bytes. -/
theorem hmacSha1_length (key msg : List Nat) : (hmacSha1 key msg).length = 20 := by
  simp only [hmacSha1]
  exact sha1_length _

/-- All elements of an HMAC-SHA1 digest are bytes. -/
theorem hmacSha1_bytes_lt (key msg : List Nat) : ∀ b ∈ hmacSha1 key msg, b < 256 := by
  simp only [hmacSha1]
  exact sha1_bytes_lt _

/-- Defaulted lookup in a list of bytes yields a byte. -/
theorem getD_lt_256 : ∀ (l : List Nat), (∀ b ∈ l, b < 256) → ∀ i, l.getD i 0 < 256 := by
  intro l
  induction l with
  | nil =>
    intro _ i
    rw [List.getD_eq_getElem?_getD]
    simp
  | cons a t ih =>
    intro h i
    cases i with
    | zero =>
      rw [List.getD_cons_zero]
      exact h a (by simp)
    | succ n =>
      rw [List.getD_cons_succ]
      exact ih (fun b hb => h b (by simp [hb])) n

/-- The digit character of a reduced value is a decimal digit. -/
theorem digitChar_mod_isDigit (x : Nat) : (Nat.digitChar (x % 10)).isDigit = true := by
  have h : x % 10 < 10 := Nat.mod_lt _ (by norm_num)
  have hall : ∀ k < 10, (Nat.digitChar k).isDigit = true := by decide
  exact hall _ h

/-- A rendered code has exactly 6 characters. -/
theorem pad6_length (n : Nat) : (pad6 n).length = 6 := rfl

/-- All characters of a rendered code are decimal digits. -/
theorem pad6_digits (n : Nat) : ∀ c ∈ (pad6 n).data, c.isDigit = true := by
  intro c hc
  have hd : (pad6 n).data = [Nat.digitChar (n / 100000 % 10), Nat.digitChar (n / 10000 % 10),
      Nat.digitChar (n / 1000 % 10), Nat.digitChar (n / 100 % 10),
      Nat.digitChar (n / 10 % 10), Nat.digitChar (n % 10)] := rfl
  rw [hd] at hc
  simp only [List.mem_cons, List.not_mem_nil, or_false] at hc
  rcases hc with rfl | rfl | rfl | rfl | rfl | rfl
  all_goals exact digitChar_mod_isDigit _

/-- The implemented HOTP truncation agrees with the specification formula
(the Go `& 0xFF` masks are identities on digest bytes and the last digest
byte is `digest[19]`). -/
theorem generateHOTP_eq_spec (key : List Nat) (counter : Nat) :
    generateHOTP key counter =
      pad6 (dynamicTruncate (hmacSha1 key (be8 counter)) % 1000000) := by
  have hlen := hmacSha1_length key (be8 counter)
  have hbytes := hmacSha1_bytes_lt key (be8 counter)
  have hgd := getD_lt_256 _ hbytes
  have hne : hmacSha1 key (be8 counter) ≠ [] := by
    intro h
    rw [h] at hlen
    simp at hlen
  have hlast : (hmacSha1 key (be8 counter)).getLastD 0
      = (hmacSha1 key (be8 counter)).getD 19 0 := by
    rw [getLastD_eq_getD _ 0 hne, hlen]
  have hmask : ∀ i, (hmacSha1 key (be8 counter)).getD i 0 &&& 255
      = (hmacSha1 key (be8 counter)).getD i 0 := fun i => by
    rw [and255]
    exact Nat.mod_eq_of_lt (hgd i)
  simp only [generateHOTP, dynamicTruncate]
  rw [hlast, hmask, hmask, hmask]

/-- The dynamically truncated value is a 31-bit value. -/
theorem dynamicTruncate_lt_31 (digest : List Nat) (hb : ∀ i, digest.getD i 0 < 256) :
    dynamicTruncate digest < 2147483648 := by
  simp only [dynamicTruncate]
  rw [Nat.shiftLeft_eq, Nat.shiftLeft_eq, Nat.shiftLeft_eq]
  set o := digest.getD 19 0 &&& 15 with ho
  have ha : digest.getD o 0 &&& 127 < 128 := by
    rw [and127]
    omega
  have hb1 : digest.getD (o + 1) 0 < 256 := hb _
  have hb2 : digest.getD (o + 2) 0 < 256 := hb _
  have hb3 : digest.getD (o + 3) 0 < 256 := hb _
  have e24 : (2 : Nat) ^ 24 = 16777216 := by norm_num
  have e16 : (2 : Nat) ^ 16 = 65536 := by norm_num
  have e8 : (2 : Nat) ^ 8 = 256 := by norm_num
  rw [e24, e16, e8]
  rw [or_eq_add ((digest.getD o 0 &&& 127) * 16777216) (digest.getD (o + 1) 0 * 65536)
      16777216 24 (by norm_num) (by omega) (by omega)]
  rw [or_eq_add ((digest.getD o 0 &&& 127) * 16777216 + digest.getD (o + 1) 0 * 65536)
      (digest.getD (o + 2) 0 * 256) 65536 16 (by norm_num) (by omega) (by omega)]
  rw [or_eq_add ((digest.getD o 0 &&& 127) * 16777216 + digest.getD (o + 1) 0 * 65536
        + digest.getD (o + 2) 0 * 256) (digest.getD (o + 3) 0) 256 8
      (by norm_num) (by omega) (by omega)]
  omega

/-- C1: for every key and every 64-bit counter, `generateHOTP` serializes
the counter as 8 bytes big-endian, applies HMAC-SHA1, performs RFC 4226
dynamic truncation of the digest to a 31-bit value, reduces it mod
1000000, and renders the result as a zero-padded 6-character decimal digit
string. -/
theorem generateHOTP_rfc4226 (key : List Nat) (counter : Nat)
    (_hc : counter < 18446744073709551616) :
    generateHOTP key counter
        = pad6 (dynamicTruncate (hmacSha1 key (be8 counter)) % 1000000)
    ∧ dynamicTruncate (hmacSha1 key (be8 counter)) < 2147483648
    ∧ dynamicTruncate (hmacSha1 key (be8 counter)) % 1000000 < 1000000
    ∧ (generateHOTP key counter).length = 6
    ∧ ∀ c ∈ (generateHOTP key counter).data, c.isDigit = true := by
  refine ⟨generateHOTP_eq_spec key counter,
    dynamicTruncate_lt_31 _ (getD_lt_256 _ (hmacSha1_bytes_lt _ _)),
    Nat.mod_lt _ (by norm_num), pad6_length _, ?_⟩
  rw [generateHOTP_eq_spec key counter]
  exact pad6_digits _

/-- Witness for C1 at key `[]` and counter 0. -/
theorem generateHOTP_rfc4226_witness :
    generateHOTP [] 0 = pad6 (dynamicTruncate (hmacSha1 [] (be8 0)) % 1000000)
    ∧ dynamicTruncate (hmacSha1 [] (be8 0)) < 2147483648 :=
  ⟨(generateHOTP_rfc4226 [] 0 (by norm_num)).1,
   (generateHOTP_rfc4226 [] 0 (by norm_num)).2.1⟩

set_option maxRecDepth 10000 in
/-- C2 counterexample: the 16-symbol secret `GEZDGNBVGY3TQOJQ` decodes to
the 10-byte ASCII key `1234567890`, not the 20-byte RFC 4226 key, and the
counter-0 code it produces is `891490`, not the reference code `755224`. -/
theorem rfc_vector_cex :
    decodeBase32 vecSecret16 = some asciiKey10
    ∧ (decodeBase32 vecSecret16).map (fun key => generateHOTP key 0) = some "891490"
    ∧ ("891490" : String) ≠ "755224" :=
  ⟨by decide, by decide, by decide⟩

set_option maxRecDepth 10000 in
/-- C2 amended: the Base32 encoding of the ASCII key `12345678901234567890`
is the 32-symbol secret `GEZDGNBVGY3TQOJQGEZDGNBVGY3TQOJQ`; it decodes to
the RFC 4226 key and the generator reproduces the nine Appendix D
reference codes at counters 0 through 8. -/
theorem rfc_vectors_amended :
    decodeBase32 vecSecret32 = some rfcKey20
    ∧ (List.range 9).map (fun c => generateHOTP rfcKey20 c)
        = ["755224", "287082", "359152", "969429", "338314", "254676",
           "287922", "162583", "399871"] :=
  ⟨by decide, by decide⟩

set_option maxRecDepth 10000 in
/-- C5 counterexample: `generateTOTP` on the empty secret succeeds and
returns a code (the empty string decodes to an empty key, which HMAC
accepts), contrary to the claim that it fails with the invalid-secret
error. -/
theorem generate_empty_secret_cex :
    (generateTOTP [] 0).isSome = true ∧ generateTOTP [] 0 = some "328482" :=
  ⟨rfl, by decide⟩

/-- C5 amended: the malformed secret `not-base32!!!` makes `generateTOTP`
fail with the invalid-secret error while `validateTOTP` with the same
secret returns `false` without raising an error; the empty secret,
contrary to the original claim, decodes to an empty key and `generateTOTP`
succeeds on it. -/
theorem error_propagation_amended (t now : Int) :
    generateTOTP notB32 t = none
    ∧ validateTOTP "000000" notB32 1 now = some false
    ∧ (generateTOTP [] t).isSome = true := by
  have h : decodeBase32 notB32 = none := by decide
  have h2 : decodeBase32 ([] : List Nat) = some [] := by decide
  refine ⟨?_, ?_, ?_⟩
  · simp [generateTOTP, h]
  · simp [validateTOTP, h]
  · simp [generateTOTP, h2]

/-- C7 counterexample: at Unix time -31 the implemented counter (truncating
division, then conversion to uint64) differs from the floor-based counter
of the claim. -/
theorem totpCounter_floor_cex :
    totpCounter (-31) = 18446744073709551615
    ∧ floorCounter (-31) = 18446744073709551614
    ∧ totpCounter (-31) ≠ floorCounter (-31) :=
  ⟨by decide, by decide, by decide⟩

/-- Values already in the int64 range are fixed by the wrap. -/
theorem int64Wrap_eq (x : Int) (h1 : -9223372036854775808 ≤ x)
    (h2 : x < 9223372036854775808) : int64Wrap x = x := by
  rw [int64Wrap]
  omega

/-- The wrap always lands in the int64 range. -/
theorem int64Wrap_bounds (x : Int) :
    -9223372036854775808 ≤ int64Wrap x ∧ int64Wrap x < 9223372036854775808 := by
  rw [int64Wrap]
  constructor <;> omega

/-- Unfolding equation of the probe loop at successor fuel. -/
theorem probeLoop_succ (key : List Nat) (pc : String) (cur w i : Int) (f : Nat) :
    probeLoop key pc cur w i (f + 1)
      = if i ≤ w then
          if generateHOTP key (uint64OfInt (cur + i)) = pc then some true
          else probeLoop key pc cur w (int64Wrap (i + 1)) f
        else some false := rfl

/-- When the loop condition fails at entry the loop exits with `false`. -/
theorem probeLoop_exit (key : List Nat) (pc : String) (cur w i : Int)
    (fuel : Nat) (hf : 1 ≤ fuel) (h : ¬ i ≤ w) :
    probeLoop key pc cur w i fuel = some false := by
  cases fuel with
  | zero => exact absurd hf (by omega)
  | succ f => rw [probeLoop_succ, if_neg h]

/-- On the wrap-free domain (window bound at most 2^63 - 2, index at least
-2^63) the probe loop terminates within any sufficient fuel and returns
whether some counter of the remaining window matches the candidate. -/
theorem probeLoop_terminates (key : List Nat) (pc : String) (cur w : Int)
    (hw : w ≤ 9223372036854775806) :
    ∀ (fuel : Nat) (i : Int), -9223372036854775808 ≤ i →
      (w + 1 - i).toNat < fuel →
      probeLoop key pc cur w i fuel
        = some (decide (∃ t ∈ Finset.Icc i w,
            generateHOTP key (uint64OfInt (cur + t)) = pc)) := by
  intro fuel
  induction fuel with
  | zero =>
    intro i h1 h2
    exact absurd h2 (by omega)
  | succ f ih =>
    intro i h1 h2
    rw [probeLoop_succ]
    by_cases hiw : i ≤ w
    · rw [if_pos hiw]
      by_cases hhit : generateHOTP key (uint64OfInt (cur + i)) = pc
      · have hex : ∃ t ∈ Finset.Icc i w,
            generateHOTP key (uint64OfInt (cur + t)) = pc :=
          ⟨i, Finset.mem_Icc.mpr ⟨le_refl i, hiw⟩, hhit⟩
        rw [if_pos hhit, decide_eq_true hex]
      · rw [if_neg hhit, int64Wrap_eq (i + 1) (by omega) (by omega),
          ih (i + 1) (by omega) (by omega)]
        congr 1
        rw [decide_eq_decide]
        constructor
        · rintro ⟨t, hm, ht3⟩
          rw [Finset.mem_Icc] at hm
          exact ⟨t, Finset.mem_Icc.mpr ⟨by omega, hm.2⟩, ht3⟩
        · rintro ⟨t, hm, ht3⟩
          rw [Finset.mem_Icc] at hm
          rcases eq_or_lt_of_le hm.1 with rfl | hlt
          · exact absurd ht3 hhit
          · exact ⟨t, Finset.mem_Icc.mpr ⟨by omega, hm.2⟩, ht3⟩
    · rw [if_neg hiw]
      have hfalse : decide (∃ t ∈ Finset.Icc i w,
          generateHOTP key (uint64OfInt (cur + t)) = pc) = false := by
        simp only [decide_eq_false_iff_not]
        rintro ⟨t, hm, _⟩
        rw [Finset.mem_Icc] at hm
        omega
      rw [hfalse]

/-- At windowSteps = 2^63 - 1 the loop condition holds for every int64
index, so when no counter at all matches the candidate the loop never
exits, whatever the fuel. -/
theorem probeLoop_none (key : List Nat) (pc : String) (cur : Int)
    (hall : ∀ t : Int, generateHOTP key (uint64OfInt (cur + t)) ≠ pc) :
    ∀ (fuel : Nat) (i : Int), -9223372036854775808 ≤ i →
      i < 9223372036854775808 →
      probeLoop key pc cur 9223372036854775807 i fuel = none := by
  intro fuel
  induction fuel with
  | zero => intro i h1 h2; rfl
  | succ f ih =>
    intro i h1 h2
    rw [probeLoop_succ, if_pos (by omega : i ≤ 9223372036854775807),
      if_neg (hall i)]
    exact ih (int64Wrap (i + 1)) (int64Wrap_bounds (i + 1)).1
      (int64Wrap_bounds (i + 1)).2

set_option maxRecDepth 10000 in
/-- C10 counterexample: windowSteps = -2^63 is negative and parsed by
strconv.Atoi, but Go's initial loop index `-windowSteps` wraps back to
-2^63 in int64, so the loop body executes once, probing the single counter
uint64(currentCounter - 2^63); with the empty secret at instant 0 that
counter is 2^63 and its code 943357 validates as true — refuting the claim
that every negative window probes no counter and returns false for every
candidate. -/
theorem validateTOTP_minint_window_cex :
    (-9223372036854775808 : Int) < 0
    ∧ validateTOTP "943357" [] (-9223372036854775808) 0 = some true :=
  ⟨by decide, by decide⟩

/-- C10 amended: for every windowSteps w with -2^63 < w < 0 the loop body
of `validateTOTP` never executes (the initial index -w is wrap-free and
exceeds w) and the result is false for every candidate and secret; at
w = -2^63 the negation wraps to -2^63 and exactly the single counter
uint64(currentCounter - 2^63) is probed, so the result is true exactly
when the candidate equals its code; and the validate handler forwards any
integer parsed from the window query parameter, negative values
included. -/
theorem validateTOTP_negative_window (pc : String) (secret : List Nat)
    (w now : Int) (hw : w < 0) (hw2 : -9223372036854775808 < w)
    (wstr : List Nat) :
    validateTOTP pc secret w now = some false
    ∧ (∀ key, decodeBase32 secret = some key →
        validateTOTP pc secret (-9223372036854775808) now
          = some (decide (generateHOTP key
              (uint64OfInt (Int.tdiv now StepSize + -9223372036854775808)) = pc)))
    ∧ (goAtoi wstr = some w → windowStepsOf wstr = w) := by
  refine ⟨?_, ?_, ?_⟩
  · cases h : decodeBase32 secret with
    | none => simp [validateTOTP, h]
    | some key =>
      simp only [validateTOTP, h]
      rw [int64Wrap_eq (-w) (by omega) (by omega)]
      exact probeLoop_exit key pc (Int.tdiv now StepSize) w (-w)
        18446744073709551616 (by norm_num) (by omega)
  · intro key hkey
    simp only [validateTOTP, hkey]
    have hneg : int64Wrap (-(-9223372036854775808 : Int)) = -9223372036854775808 := by
      decide
    rw [hneg]
    have hfuel : (18446744073709551616 : Nat) = 18446744073709551615 + 1 := by
      norm_num
    rw [hfuel, probeLoop_succ, if_pos (le_refl (-9223372036854775808 : Int))]
    by_cases hhit : generateHOTP key
        (uint64OfInt (Int.tdiv now StepSize + -9223372036854775808)) = pc
    · rw [if_pos hhit, decide_eq_true hhit]
    · rw [if_neg hhit, decide_eq_false hhit]
      have hwrap : int64Wrap (-9223372036854775808 + 1) = -9223372036854775807 := by
        decide
      rw [hwrap]
      exact probeLoop_exit key pc (Int.tdiv now StepSize) (-9223372036854775808)
        (-9223372036854775807) 18446744073709551615 (by norm_num) (by norm_num)
  · intro h
    have hne : wstr ≠ [] := by
      rintro rfl
      simp [goAtoi] at h
    simp [windowStepsOf, hne, h]

/-- Witness for the amended C10 at window -1 and window string `-1`. -/
theorem validateTOTP_negative_window_witness :
    validateTOTP "000000" [] (-1) 0 = some false
    ∧ (goAtoi [45, 49] = some (-1) → windowStepsOf [45, 49] = -1) :=
  ⟨(validateTOTP_negative_window "000000" [] (-1) 0 (by norm_num) (by norm_num)
      [45, 49]).1,
   (validateTOTP_negative_window "000000" [] (-1) 0 (by norm_num) (by norm_num)
      [45, 49]).2.2⟩

/-- Membership description of the symmetric probe list. -/
theorem range_any_iff (w : Int) (p : Int → Bool) (hw : 0 ≤ w) :
    (((List.range (2 * w + 1).toNat).map (fun (j : Nat) => -w + (j : Int))).any p = true)
      ↔ ∃ i : Int, -w ≤ i ∧ i ≤ w ∧ p i = true := by
  rw [List.any_eq_true]
  constructor
  · rintro ⟨x, hx, hP⟩
    rw [List.mem_map] at hx
    obtain ⟨j, hj, rfl⟩ := hx
    rw [List.mem_range] at hj
    exact ⟨-w + j, by omega, by omega, hP⟩
  · rintro ⟨i, h1, h2, hP⟩
    refine ⟨i, ?_, hP⟩
    rw [List.mem_map]
    refine ⟨(i + w).toNat, ?_, by omega⟩
    rw [List.mem_range]
    omega

/-- C3 counterexample: at windowSteps = 2^63 - 1 — inside the claim's
domain w ≥ 0 — the loop condition i <= windowSteps holds for every int64
index, so for a candidate that matches no code at all (the 1-character
string `x`, while every generated code has 6 characters) the Go loop never
exits: the result is `none` (non-termination), not the `false` the claim
promises when no probe matches. -/
theorem validateTOTP_divergence_cex :
    validateTOTP "x" [] 9223372036854775807 0 = none
    ∧ (none : Option Bool) ≠ some false := by
  refine ⟨?_, by simp⟩
  have hd : decodeBase32 ([] : List Nat) = some [] := by decide
  simp only [validateTOTP, hd]
  refine probeLoop_none [] "x" (Int.tdiv 0 StepSize) (fun t h => ?_)
    18446744073709551616 (int64Wrap (-9223372036854775807))
    (int64Wrap_bounds _).1 (int64Wrap_bounds _).2
  have hlen := congrArg String.length h
  rw [generateHOTP_eq_spec, pad6_length] at hlen
  exact absurd hlen (by decide)

/-- C3: for windowSteps w with 0 ≤ w ≤ 2^63 - 2 — so that neither the
initial index -w nor the increment can wrap in int64; at w = 2^63 - 1 the
loop diverges, as the counterexample records — `validateTOTP` decodes the
secret, probes the counters currentCounter + i for i over [-w, w] in
increasing order comparing generated codes with the candidate by exact
string equality (true exactly when some probe matches, false otherwise,
and false whenever the secret fails to decode), and the probe arithmetic
is signed: whenever currentCounter ≥ w and the instant is in the int64
range, the conversion of currentCounter + i to uint64 is lossless. -/
theorem validateTOTP_window_spec (pc : String) (secret : List Nat) (w now : Int)
    (hw : 0 ≤ w) (hw2 : w ≤ 9223372036854775806) :
    (validateTOTP pc secret w now =
      some (match decodeBase32 secret with
      | none => false
      | some key =>
        ((List.range (2 * w + 1).toNat).map (fun (j : Nat) => -w + (j : Int))).any
          (fun i => decide (generateHOTP key (uint64OfInt (Int.tdiv now StepSize + i)) = pc))))
    ∧ (now < 9223372036854775808 → w ≤ Int.tdiv now StepSize →
        ∀ i : Int, -w ≤ i → i ≤ w →
          uint64OfInt (Int.tdiv now StepSize + i) = (Int.tdiv now StepSize + i).toNat) := by
  constructor
  · cases h : decodeBase32 secret with
    | none => simp [validateTOTP, h]
    | some key =>
      simp only [validateTOTP, h]
      rw [int64Wrap_eq (-w) (by omega) (by omega)]
      rw [probeLoop_terminates key pc (Int.tdiv now StepSize) w hw2
        18446744073709551616 (-w) (by omega) (by omega)]
      congr 1
      rw [Bool.eq_iff_iff, decide_eq_true_eq, range_any_iff w _ hw]
      constructor
      · rintro ⟨t, hm, h3⟩
        rw [Finset.mem_Icc] at hm
        exact ⟨t, hm.1, hm.2, by simp [h3]⟩
      · rintro ⟨i, h1, h2, h3⟩
        exact ⟨i, Finset.mem_Icc.mpr ⟨h1, h2⟩, of_decide_eq_true h3⟩
  · intro hnow hcw i h1 h2
    have hnn : 0 ≤ Int.tdiv now StepSize := le_trans hw hcw
    have hlt : Int.tdiv now StepSize < 9223372036854775808 := by
      rcases le_or_lt 0 now with hpos | hneg
      · rw [Int.tdiv_eq_ediv hpos (by decide)]
        calc now / StepSize ≤ now := Int.ediv_le_self StepSize hpos
          _ < _ := hnow
      · have hx : 0 ≤ Int.tdiv (-now) StepSize :=
          Int.tdiv_nonneg (by omega) (by decide)
        rw [Int.neg_tdiv] at hx
        omega
    rw [uint64OfInt]
    omega

/-- Witness for C3 at window 0, time 0 and the empty secret. -/
theorem validateTOTP_window_spec_witness :
    (validateTOTP "328482" [] 0 0 =
      some (match decodeBase32 [] with
      | none => false
      | some key =>
        ((List.range (2 * (0 : Int) + 1).toNat).map (fun (j : Nat) => -(0 : Int) + (j : Int))).any
          (fun i => decide (generateHOTP key (uint64OfInt (Int.tdiv 0 StepSize + i)) = "328482"))))
    ∧ uint64OfInt (Int.tdiv 0 StepSize + 0) = (Int.tdiv 0 StepSize + 0).toNat :=
  ⟨(validateTOTP_window_spec "328482" [] 0 0 (by norm_num) (by norm_num)).1,
   (validateTOTP_window_spec "328482" [] 0 0 (by norm_num) (by norm_num)).2 (by norm_num)
     (by decide) 0 (by norm_num) (by norm_num)⟩

set_option maxRecDepth 10000 in
/-- C4 counterexample: with windowSteps 0 and secret `GEZDGNBVGY3TQOJQ`, the
code generated one step after the validation instant (counter 793850
instead of 793849) still validates as true, because the two adjacent
counters happen to produce the same 6-digit code; so a code generated
w + 1 steps away does not always validate as false. -/
theorem validate_window_boundary_cex :
    generateTOTP vecSecret16 23815500 = some "192416"
    ∧ Int.tdiv 23815500 StepSize = Int.tdiv 23815470 StepSize + 1
    ∧ validateTOTP "192416" vecSecret16 0 23815470 = some true :=
  ⟨by decide, by decide, by decide⟩

/-- C4 amended: for windows in the wrap-free int64 range
(0 ≤ w ≤ 2^63 - 2), a code generated within the window (exactly d steps
away with |d| ≤ w) validates as true, and a code generated outside it
validates as false provided it differs from every code of the window (the
original claim fails when an outside code collides with a window code, as
the counterexample shows). -/
theorem validate_window_amended (secret key : List Nat) (t now w : Int)
    (code : String) (hw : 0 ≤ w) (hw2 : w ≤ 9223372036854775806)
    (hkey : decodeBase32 secret = some key)
    (hcode : generateTOTP secret t = some code) :
    (∀ d : Int, -w ≤ d → d ≤ w → Int.tdiv t StepSize = Int.tdiv now StepSize + d →
        validateTOTP code secret w now = some true)
    ∧ ((∀ i : Int, -w ≤ i → i ≤ w →
          generateHOTP key (uint64OfInt (Int.tdiv now StepSize + i)) ≠ code) →
        validateTOTP code secret w now = some false) := by
  have hc : code = generateHOTP key (totpCounter t) := by
    rw [generateTOTP, hkey] at hcode
    simp only [Option.map_some', Option.some.injEq] at hcode
    exact hcode.symm
  have hmain : validateTOTP code secret w now
      = some (decide (∃ t' ∈ Finset.Icc (-w) w,
          generateHOTP key (uint64OfInt (Int.tdiv now StepSize + t')) = code)) := by
    simp only [validateTOTP, hkey]
    rw [int64Wrap_eq (-w) (by omega) (by omega)]
    exact probeLoop_terminates key code (Int.tdiv now StepSize) w hw2
      18446744073709551616 (-w) (by omega) (by omega)
  constructor
  · intro d h1 h2 h3
    have hex : ∃ t' ∈ Finset.Icc (-w) w,
        generateHOTP key (uint64OfInt (Int.tdiv now StepSize + t')) = code :=
      ⟨d, Finset.mem_Icc.mpr ⟨h1, h2⟩, by rw [hc, totpCounter, h3]⟩
    rw [hmain, decide_eq_true hex]
  · intro hall
    have hfalse : decide (∃ t' ∈ Finset.Icc (-w) w,
        generateHOTP key (uint64OfInt (Int.tdiv now StepSize + t')) = code) = false := by
      simp only [decide_eq_false_iff_not]
      rintro ⟨t', hm, ht3⟩
      rw [Finset.mem_Icc] at hm
      exact hall t' hm.1 hm.2 ht3
    rw [hmain, hfalse]

set_option maxRecDepth 10000 in
/-- Witness for the amended C4 at window 0, time 0 and the empty secret. -/
theorem validate_window_amended_witness :
    validateTOTP "328482" [] 0 0 = some true :=
  (validate_window_amended [] [] 0 0 0 "328482" (by norm_num) (by norm_num) (by decide)
    (by decide)).1 0 (by norm_num) (by norm_num) (by decide)

/-- C7 amended: `generateTOTP` decodes the secret once and derives its
counter as uint64(t/StepSize) with Go's truncating division, which equals
the floor-based counter of the claim for every nonnegative int64 instant
(the counterexample shows they differ before the epoch); StepSize is the
single constant 30, and `validateTOTP` derives its current counter by the
same division of the same constant, so a window-0 validation at the same
instant accepts exactly the generated code. -/
theorem generateTOTP_counter_amended (secret : List Nat) (t : Int)
    (h0 : 0 ≤ t) (h1 : t < 9223372036854775808) :
    generateTOTP secret t
        = (decodeBase32 secret).map (fun key => generateHOTP key (totpCounter t))
    ∧ totpCounter t = (Int.fdiv t StepSize).toNat
    ∧ StepSize = 30
    ∧ ∀ pc key, decodeBase32 secret = some key →
        (validateTOTP pc secret 0 t = some true
          ↔ generateHOTP key (totpCounter t) = pc) := by
  refine ⟨rfl, ?_, rfl, ?_⟩
  · rw [totpCounter, uint64OfInt, Int.fdiv_eq_tdiv h0 (by decide)]
    have h3 : 0 ≤ Int.tdiv t StepSize := Int.tdiv_nonneg h0 (by decide)
    have h4 : Int.tdiv t StepSize ≤ t := by
      rw [Int.tdiv_eq_ediv h0 (by decide)]
      exact Int.ediv_le_self StepSize h0
    omega
  · intro pc key hkey
    simp only [validateTOTP, hkey]
    have hz : int64Wrap (-(0 : Int)) = 0 := by decide
    rw [hz]
    rw [probeLoop_terminates key pc (Int.tdiv t StepSize) 0 (by decide)
      18446744073709551616 0 (by decide) (by decide)]
    rw [Option.some.injEq, decide_eq_true_eq]
    constructor
    · rintro ⟨t', hm, ht3⟩
      rw [Finset.mem_Icc] at hm
      have ht0 : t' = 0 := by omega
      subst ht0
      rw [← ht3, totpCounter]
      norm_num
    · intro hgen
      refine ⟨0, Finset.mem_Icc.mpr ⟨le_refl 0, le_refl 0⟩, ?_⟩
      rw [← hgen, totpCounter]
      norm_num

/-- Witness for the amended C7 at time 59 and the empty secret. -/
theorem generateTOTP_counter_amended_witness :
    generateTOTP [] 59
        = (decodeBase32 []).map (fun key => generateHOTP key (totpCounter 59))
    ∧ totpCounter 59 = (Int.fdiv 59 StepSize).toNat
    ∧ StepSize = 30
    ∧ (validateTOTP "000000" [] 0 59 = some true
        ↔ generateHOTP [] (totpCounter 59) = "000000") :=
  ⟨(generateTOTP_counter_amended [] 59 (by norm_num) (by norm_num)).1,
   (generateTOTP_counter_amended [] 59 (by norm_num) (by norm_num)).2.1,
   (generateTOTP_counter_amended [] 59 (by norm_num) (by norm_num)).2.2.1,
   (generateTOTP_counter_amended [] 59 (by norm_num) (by norm_num)).2.2.2 "000000" []
     (by decide)⟩

/-- JS `t & 0xff` on a natural value is the low byte. -/
theorem jsAnd255_coe (t : Nat) : jsAnd255 (t : Int) = t % 256 := by
  rw [jsAnd255, and255]
  omega

/-- The JS division-based counter serialization equals the Go big-endian
serialization (both produce the base-256 digits). -/
theorem jsCounterBytesDiv_eq_be8 (c : Nat) : jsCounterBytesDiv 8 c = be8 c := by
  have h : jsCounterBytesDiv 8 c =
      [jsAnd255 ((c / 256 / 256 / 256 / 256 / 256 / 256 / 256 : Nat) : Int),
       jsAnd255 ((c / 256 / 256 / 256 / 256 / 256 / 256 : Nat) : Int),
       jsAnd255 ((c / 256 / 256 / 256 / 256 / 256 : Nat) : Int),
       jsAnd255 ((c / 256 / 256 / 256 / 256 : Nat) : Int),
       jsAnd255 ((c / 256 / 256 / 256 : Nat) : Int),
       jsAnd255 ((c / 256 / 256 : Nat) : Int),
       jsAnd255 ((c / 256 : Nat) : Int),
       jsAnd255 ((c : Nat) : Int)] := rfl
  rw [h]
  simp only [jsAnd255_coe, be8, Nat.shiftRight_eq_div_pow]
  norm_num [Nat.div_div_eq_div_mul]

/-- JS `t >> 8` on a natural value below 2^31 is division by 256. -/
theorem jsShr8_coe (m : Nat) (hm : m < 2147483648) :
    jsShr8 (m : Int) = ((m / 256 : Nat) : Int) := by
  rw [jsShr8, toInt32]
  have h1 : ((m : Int) + 2147483648) % 4294967296 - 2147483648 = (m : Int) := by omega
  rw [h1, Int.fdiv_eq_tdiv (by positivity) (by norm_num)]
  exact_mod_cast (Int.ofNat_tdiv m 256).symm

/-- The JS shift-based counter serialization agrees with the division-based
one on counters below 2^31. -/
theorem jsCounterBytesShr_eq (fuel : Nat) : ∀ m : Nat, m < 2147483648 →
    jsCounterBytesShr fuel (m : Int) = jsCounterBytesDiv fuel m := by
  induction fuel with
  | zero =>
    intro m hm
    rfl
  | succ f ih =>
    intro m hm
    simp only [jsCounterBytesShr, jsCounterBytesDiv]
    rw [jsShr8_coe m hm, ih (m / 256) (by omega)]

/-- C9: on every counter below 2^31 the Go HOTP generator and the two JS
variants (the Cloudflare function and the browser-embedded one) produce
the identical 6-digit code from the same key bytes and the same HMAC-SHA1
primitive. -/
theorem js_go_hotp_equiv (key : List Nat) (counter : Nat)
    (hc : counter < 2147483648) :
    jsGenerateFn key counter = generateHOTP key counter
    ∧ jsGenerateBrowser key counter = generateHOTP key counter := by
  have hdiv := jsCounterBytesDiv_eq_be8 counter
  have hshr := jsCounterBytesShr_eq 8 counter hc
  constructor
  · simp only [jsGenerateFn, generateHOTP, hdiv]
  · simp only [jsGenerateBrowser, generateHOTP, hshr, hdiv]

/-- Witness for C9 at key `[]` and counter 0. -/
theorem js_go_hotp_equiv_witness :
    jsGenerateFn [] 0 = generateHOTP [] 0
    ∧ jsGenerateBrowser [] 0 = generateHOTP [] 0 :=
  js_go_hotp_equiv [] 0 (by norm_num)

/-- A symbol with a valid decode-map entry is not the padding byte. -/
theorem decodeMapStd_ne61 {c : Nat} (h : decodeMapStd c ≠ 255) : c ≠ 61 := by
  intro hc
  rw [hc] at h
  exact h (by decide)

/-- A valid decode-map entry is a 5-bit value. -/
theorem decodeMapStd_lt32 {c : Nat} (h : decodeMapStd c ≠ 255) : decodeMapStd c < 32 := by
  rw [decodeMapStd] at *
  split_ifs at * <;> omega

/-- Full 8-symbol quantum of the bit accumulator versus the blockwise byte
formulas of the Go decoder. -/
theorem accum_block8 (v : List Nat) (hlen : v.length = 8) (hb : ∀ u ∈ v, u < 32)
    (vs : List Nat) :
    accumBits (v ++ vs) 0 0 = quantumBytes 8 v ++ accumBits vs 0 0 := by
  rcases v with _ | ⟨d0, v⟩
  · simp at hlen
  rcases v with _ | ⟨d1, v⟩
  · simp at hlen
  rcases v with _ | ⟨d2, v⟩
  · simp at hlen
  rcases v with _ | ⟨d3, v⟩
  · simp at hlen
  rcases v with _ | ⟨d4, v⟩
  · simp at hlen
  rcases v with _ | ⟨d5, v⟩
  · simp at hlen
  rcases v with _ | ⟨d6, v⟩
  · simp at hlen
  rcases v with _ | ⟨d7, v⟩
  · simp at hlen
  have hv : v = [] := by
    simpa using hlen
  subst hv
  have h0 : d0 < 32 := hb d0 (by simp)
  have h1 : d1 < 32 := hb d1 (by simp)
  have h2 : d2 < 32 := hb d2 (by simp)
  have h3 : d3 < 32 := hb d3 (by simp)
  have h4 : d4 < 32 := hb d4 (by simp)
  have h5 : d5 < 32 := hb d5 (by simp)
  have h6 : d6 < 32 := hb d6 (by simp)
  have h7 : d7 < 32 := hb d7 (by simp)
  simp [accumBits, quantumBytes, byteShl, Nat.shiftLeft_eq, Nat.shiftRight_eq_div_pow]
  refine ⟨?_, ?_, ?_, ?_, ?_, ?_⟩
  · rw [or_eq_add (d0 * 8 % 256) (d1 / 4) 8 3 (by norm_num) (by omega) (by omega)]
    omega
  · rw [or_eq_add (d1 * 64 % 256) (d2 * 2 % 256) 64 6 (by norm_num) (by omega) (by omega),
      or_eq_add (d1 * 64 % 256 + d2 * 2 % 256) (d3 / 16) 2 1 (by norm_num) (by omega) (by omega)]
    omega
  · rw [or_eq_add (d3 * 16 % 256) (d4 / 2) 16 4 (by norm_num) (by omega) (by omega)]
    omega
  · rw [or_eq_add (d4 * 128 % 256) (d5 * 4 % 256) 128 7 (by norm_num) (by omega) (by omega),
      or_eq_add (d4 * 128 % 256 + d5 * 4 % 256) (d6 / 8) 4 2 (by norm_num) (by omega) (by omega)]
    omega
  · rw [or_eq_add (d6 * 32 % 256) d7 32 5 (by norm_num) (by omega) (by omega)]
    omega
  · rw [Nat.mod_one]

/-- Final 2-symbol quantum of the bit accumulator versus the Go formulas. -/
theorem accum_block2 (v : List Nat) (hlen : v.length = 2) (hb : ∀ u ∈ v, u < 32) :
    accumBits v 0 0 = quantumBytes 2 v := by
  rcases v with _ | ⟨d0, v⟩
  · simp at hlen
  rcases v with _ | ⟨d1, v⟩
  · simp at hlen
  have hv : v = [] := by
    simpa using hlen
  subst hv
  have h0 : d0 < 32 := hb d0 (by simp)
  have h1 : d1 < 32 := hb d1 (by simp)
  simp [accumBits, quantumBytes, byteShl, Nat.shiftLeft_eq, Nat.shiftRight_eq_div_pow]
  rw [or_eq_add (d0 * 8 % 256) (d1 / 4) 8 3 (by norm_num) (by omega) (by omega)]
  omega

/-- Final 4-symbol quantum of the bit accumulator versus the Go formulas. -/
theorem accum_block4 (v : List Nat) (hlen : v.length = 4) (hb : ∀ u ∈ v, u < 32) :
    accumBits v 0 0 = quantumBytes 4 v := by
  rcases v with _ | ⟨d0, v⟩
  · simp at hlen
  rcases v with _ | ⟨d1, v⟩
  · simp at hlen
  rcases v with _ | ⟨d2, v⟩
  · simp at hlen
  rcases v with _ | ⟨d3, v⟩
  · simp at hlen
  have hv : v = [] := by
    simpa using hlen
  subst hv
  have h0 : d0 < 32 := hb d0 (by simp)
  have h1 : d1 < 32 := hb d1 (by simp)
  have h2 : d2 < 32 := hb d2 (by simp)
  have h3 : d3 < 32 := hb d3 (by simp)
  simp [accumBits, quantumBytes, byteShl, Nat.shiftLeft_eq, Nat.shiftRight_eq_div_pow]
  refine ⟨?_, ?_⟩
  · rw [or_eq_add (d0 * 8 % 256) (d1 / 4) 8 3 (by norm_num) (by omega) (by omega)]
    omega
  · rw [or_eq_add (d1 * 64 % 256) (d2 * 2 % 256) 64 6 (by norm_num) (by omega) (by omega),
      or_eq_add (d1 * 64 % 256 + d2 * 2 % 256) (d3 / 16) 2 1 (by norm_num) (by omega) (by omega)]
    omega

/-- Final 5-symbol quantum of the bit accumulator versus the Go formulas. -/
theorem accum_block5 (v : List Nat) (hlen : v.length = 5) (hb : ∀ u ∈ v, u < 32) :
    accumBits v 0 0 = quantumBytes 5 v := by
  rcases v with _ | ⟨d0, v⟩
  · simp at hlen
  rcases v with _ | ⟨d1, v⟩
  · simp at hlen
  rcases v with _ | ⟨d2, v⟩
  · simp at hlen
  rcases v with _ | ⟨d3, v⟩
  · simp at hlen
  rcases v with _ | ⟨d4, v⟩
  · simp at hlen
  have hv : v = [] := by
    simpa using hlen
  subst hv
  have h0 : d0 < 32 := hb d0 (by simp)
  have h1 : d1 < 32 := hb d1 (by simp)
  have h2 : d2 < 32 := hb d2 (by simp)
  have h3 : d3 < 32 := hb d3 (by simp)
  have h4 : d4 < 32 := hb d4 (by simp)
  simp [accumBits, quantumBytes, byteShl, Nat.shiftLeft_eq, Nat.shiftRight_eq_div_pow]
  refine ⟨?_, ?_, ?_⟩
  · rw [or_eq_add (d0 * 8 % 256) (d1 / 4) 8 3 (by norm_num) (by omega) (by omega)]
    omega
  · rw [or_eq_add (d1 * 64 % 256) (d2 * 2 % 256) 64 6 (by norm_num) (by omega) (by omega),
      or_eq_add (d1 * 64 % 256 + d2 * 2 % 256) (d3 / 16) 2 1 (by norm_num) (by omega) (by omega)]
    omega
  · rw [or_eq_add (d3 * 16 % 256) (d4 / 2) 16 4 (by norm_num) (by omega) (by omega)]
    omega

/-- Final 7-symbol quantum of the bit accumulator versus the Go formulas. -/
theorem accum_block7 (v : List Nat) (hlen : v.length = 7) (hb : ∀ u ∈ v, u < 32) :
    accumBits v 0 0 = quantumBytes 7 v := by
  rcases v with _ | ⟨d0, v⟩
  · simp at hlen
  rcases v with _ | ⟨d1, v⟩
  · simp at hlen
  rcases v with _ | ⟨d2, v⟩
  · simp at hlen
  rcases v with _ | ⟨d3, v⟩
  · simp at hlen
  rcases v with _ | ⟨d4, v⟩
  · simp at hlen
  rcases v with _ | ⟨d5, v⟩
  · simp at hlen
  rcases v with _ | ⟨d6, v⟩
  · simp at hlen
  have hv : v = [] := by
    simpa using hlen
  subst hv
  have h0 : d0 < 32 := hb d0 (by simp)
  have h1 : d1 < 32 := hb d1 (by simp)
  have h2 : d2 < 32 := hb d2 (by simp)
  have h3 : d3 < 32 := hb d3 (by simp)
  have h4 : d4 < 32 := hb d4 (by simp)
  have h5 : d5 < 32 := hb d5 (by simp)
  have h6 : d6 < 32 := hb d6 (by simp)
  simp [accumBits, quantumBytes, byteShl, Nat.shiftLeft_eq, Nat.shiftRight_eq_div_pow]
  refine ⟨?_, ?_, ?_, ?_⟩
  · rw [or_eq_add (d0 * 8 % 256) (d1 / 4) 8 3 (by norm_num) (by omega) (by omega)]
    omega
  · rw [or_eq_add (d1 * 64 % 256) (d2 * 2 % 256) 64 6 (by norm_num) (by omega) (by omega),
      or_eq_add (d1 * 64 % 256 + d2 * 2 % 256) (d3 / 16) 2 1 (by norm_num) (by omega) (by omega)]
    omega
  · rw [or_eq_add (d3 * 16 % 256) (d4 / 2) 16 4 (by norm_num) (by omega) (by omega)]
    omega
  · rw [or_eq_add (d4 * 128 % 256) (d5 * 4 % 256) 128 7 (by norm_num) (by omega) (by omega),
      or_eq_add (d4 * 128 % 256 + d5 * 4 % 256) (d6 / 8) 4 2 (by norm_num) (by omega) (by omega)]
    omega

/-- The inner quantum loop consumes a run of valid symbols, extending the
symbol buffer with their values. -/
theorem readQuantum_syms : ∀ (g : List Nat) (fuel j : Nat) (src dbuf : List Nat),
    (∀ c ∈ g, decodeMapStd c ≠ 255) → g.length ≤ fuel →
    readQuantum fuel j (g ++ src) dbuf
      = readQuantum (fuel - g.length) (j + g.length) src (dbuf ++ g.map decodeMapStd) := by
  intro g
  induction g with
  | nil =>
    intro fuel j src dbuf _ _
    simp
  | cons c g ih =>
    intro fuel j src dbuf hg hlen
    cases fuel with
    | zero => simp at hlen
    | succ f =>
      have hc255 : decodeMapStd c ≠ 255 := hg c (by simp)
      have hc61 : c ≠ 61 := decodeMapStd_ne61 hc255
      simp only [List.cons_append, readQuantum]
      rw [if_neg (fun h => hc61 h.1), if_neg hc255]
      rw [ih f (j + 1) src (dbuf ++ [decodeMapStd c]) (fun u hu => hg u (by simp [hu]))
        (by simpa using hlen)]
      have e1 : f - g.length = f + 1 - (c :: g).length := by simp
      have e2 : j + 1 + g.length = j + (c :: g).length := by simp [List.length_cons]; omega
      rw [e1, e2]
      simp

/-- Padding run of length 7 at symbol index 1: rejected (dlen 1 invalid). -/
theorem readQuantum_pads1 (dbuf : List Nat) :
    readQuantum 7 1 (List.replicate 7 61) dbuf = none := rfl

/-- Padding run of length 6 at symbol index 2: accepted with dlen 2. -/
theorem readQuantum_pads2 (dbuf : List Nat) :
    readQuantum 6 2 (List.replicate 6 61) dbuf
      = some (2, dbuf, List.replicate 5 61, true) := rfl

/-- Padding run of length 5 at symbol index 3: rejected (dlen 3 invalid). -/
theorem readQuantum_pads3 (dbuf : List Nat) :
    readQuantum 5 3 (List.replicate 5 61) dbuf = none := rfl

/-- Padding run of length 4 at symbol index 4: accepted with dlen 4. -/
theorem readQuantum_pads4 (dbuf : List Nat) :
    readQuantum 4 4 (List.replicate 4 61) dbuf
      = some (4, dbuf, List.replicate 3 61, true) := rfl

/-- Padding run of length 3 at symbol index 5: accepted with dlen 5. -/
theorem readQuantum_pads5 (dbuf : List Nat) :
    readQuantum 3 5 (List.replicate 3 61) dbuf
      = some (5, dbuf, List.replicate 2 61, true) := rfl

/-- Padding run of length 2 at symbol index 6: rejected (dlen 6 invalid). -/
theorem readQuantum_pads6 (dbuf : List Nat) :
    readQuantum 2 6 (List.replicate 2 61) dbuf = none := rfl

/-- Padding run of length 1 at symbol index 7: accepted with dlen 7. -/
theorem readQuantum_pads7 (dbuf : List Nat) :
    readQuantum 1 7 [61] dbuf
      = some (7, dbuf, [], true) := rfl

/-- One unfolding of the inner quantum loop on a nonempty source. -/
theorem readQuantum_cons (f j : Nat) (c : Nat) (r dbuf : List Nat) :
    readQuantum (f + 1) j (c :: r) dbuf
      = if c = 61 ∧ 2 ≤ j ∧ r.length < 8 then
          if r.length + j < 7 then none
          else if (List.range (7 - j)).all
              (fun k => !(decide (k < r.length)) || (r.getD k 0 == 61)) then
            if j = 1 ∨ j = 3 ∨ j = 6 then none else some (j, dbuf, r, true)
          else none
        else
          if decodeMapStd c = 255 then none
          else readQuantum f (j + 1) r (dbuf ++ [decodeMapStd c]) := rfl

/-- A successful quantum always has a data length of 8 or one of the valid
partial lengths 2, 4, 5, 7. -/
theorem readQuantum_dlen : ∀ (fuel j : Nat) (src dbuf : List Nat) (dl : Nat)
    (d rest : List Nat) (st : Bool), fuel + j = 8 →
    readQuantum fuel j src dbuf = some (dl, d, rest, st) →
    dl = 8 ∨ (2 ≤ dl ∧ dl ≠ 3 ∧ dl ≠ 6 ∧ dl ≤ 7) := by
  intro fuel
  induction fuel with
  | zero =>
    intro j src dbuf dl d rest st hj h
    simp only [readQuantum, Option.some.injEq, Prod.mk.injEq] at h
    left
    exact h.1.symm
  | succ f ih =>
    intro j src dbuf dl d rest st hj h
    cases src with
    | nil => simp [readQuantum] at h
    | cons c r =>
      rw [readQuantum_cons] at h
      by_cases hc : c = 61 ∧ 2 ≤ j ∧ r.length < 8
      · rw [if_pos hc] at h
        by_cases h7 : r.length + j < 7
        · rw [if_pos h7] at h
          simp at h
        · rw [if_neg h7] at h
          by_cases hall : ((List.range (7 - j)).all
              (fun k => !(decide (k < r.length)) || (r.getD k 0 == 61))) = true
          · rw [if_pos hall] at h
            by_cases h136 : j = 1 ∨ j = 3 ∨ j = 6
            · rw [if_pos h136] at h
              simp at h
            · rw [if_neg h136] at h
              simp only [Option.some.injEq, Prod.mk.injEq] at h
              obtain ⟨hdl, -⟩ := h
              right
              push_neg at h136
              omega
          · rw [if_neg hall] at h
            simp at h
      · rw [if_neg hc] at h
        by_cases hv : decodeMapStd c = 255
        · rw [if_pos hv] at h
          simp at h
        · rw [if_neg hv] at h
          exact ih (j + 1) r (dbuf ++ [decodeMapStd c]) dl d rest st (by omega) h

/-- A quantum with a valid data length emits at least one byte. -/
theorem quantumBytes_ne_nil (dl : Nat) (d : List Nat)
    (h : dl = 8 ∨ (2 ≤ dl ∧ dl ≠ 3 ∧ dl ≠ 6 ∧ dl ≤ 7)) :
    quantumBytes dl d ≠ [] := by
  rcases h with rfl | ⟨h1, h2, h3, h4⟩
  · simp [quantumBytes]
  · interval_cases dl <;> simp_all [quantumBytes]

/-- Decoding the empty input succeeds with no bytes. -/
theorem decodeLoop_nil (fuel : Nat) : decodeLoop fuel [] = some [] := by
  cases fuel <;> rfl

/-- One unfolding of the outer decode loop on a nonempty input. -/
theorem decodeLoop_step (f : Nat) (src : List Nat) (hne : src ≠ []) :
    decodeLoop (f + 1) src
      = match readQuantum 8 0 src [] with
        | none => none
        | some (dlen, d, rest, stop) =>
          if stop then some (quantumBytes dlen d)
          else match decodeLoop f rest with
            | none => none
            | some bs => some (quantumBytes dlen d ++ bs) := by
  cases src with
  | nil => exact absurd rfl hne
  | cons c r => rfl

/-- Input beginning with the padding byte is rejected. -/
theorem decodeLoop_pad_head (fuel : Nat) (rest : List Nat) :
    decodeLoop fuel (61 :: rest) = none := by
  cases fuel with
  | zero => rfl
  | succ f =>
    have h : readQuantum 8 0 (61 :: rest) [] = none := rfl
    rw [decodeLoop_step f (61 :: rest) (by simp), h]

/-- A successful decode of a nonempty input yields at least one byte. -/
theorem decodeLoop_ne_nil : ∀ (fuel : Nat) (src bs : List Nat),
    decodeLoop fuel src = some bs → src ≠ [] → bs ≠ [] := by
  intro fuel src bs h hne
  cases fuel with
  | zero =>
    cases src with
    | nil => exact absurd rfl hne
    | cons c r => simp [decodeLoop] at h
  | succ f =>
    rw [decodeLoop_step f src hne] at h
    cases hq : readQuantum 8 0 src [] with
    | none =>
      rw [hq] at h
      simp at h
    | some q =>
      obtain ⟨dl, d, rest, st⟩ := q
      rw [hq] at h
      have hdl := readQuantum_dlen 8 0 src [] dl d rest st (by norm_num) hq
      have hqb := quantumBytes_ne_nil dl d hdl
      cases st with
      | true =>
        simp at h
        rw [← h]
        exact hqb
      | false =>
        simp at h
        cases hrec : decodeLoop f rest with
        | none =>
          rw [hrec] at h
          simp at h
        | some bs2 =>
          rw [hrec] at h
          simp at h
          rw [← h]
          intro hx
          rw [List.append_eq_nil] at hx
          exact hqb hx.1

/-- Characterization of the Go decoder on canonical inputs: a run of valid
symbols completed by the exact padding decodes to the MSB-first 5-bit
accumulation of the symbol values, and fails exactly for the residues 1, 3
and 6, which admit no valid padding. -/
theorem decodeLoop_canonical : ∀ (fuel : Nat) (g : List Nat) (p : Nat),
    (∀ c ∈ g, decodeMapStd c ≠ 255) →
    p = (8 - g.length % 8) % 8 →
    g.length + p ≤ fuel →
    decodeLoop fuel (g ++ List.replicate p 61)
      = if g.length % 8 = 1 ∨ g.length % 8 = 3 ∨ g.length % 8 = 6 then none
        else some (accumBits (g.map decodeMapStd) 0 0) := by
  intro fuel
  induction fuel with
  | zero =>
    intro g p hg hp hlen
    have hg0 : g = [] := List.length_eq_zero.mp (by omega)
    subst hg0
    have hp0 : p = 0 := by simpa using hp
    subst hp0
    simp [decodeLoop_nil, accumBits]
  | succ f ih =>
    intro g p hg hp hlen
    by_cases h8 : 8 ≤ g.length
    · set g8 := g.take 8 with hg8
      set z := g.drop 8 with hz
      have hsplit : g8 ++ z = g := List.take_append_drop 8 g
      have hlen8 : g8.length = 8 := by
        rw [hg8, List.length_take]
        omega
      have hgne : g ≠ [] := by
        intro hq
        rw [hq] at h8
        simp at h8
      have hne : g ++ List.replicate p 61 ≠ [] := by
        intro hq
        rcases List.append_eq_nil.mp hq with ⟨h1, _⟩
        exact hgne h1
      rw [decodeLoop_step f _ hne]
      have hq : readQuantum 8 0 (g ++ List.replicate p 61) []
          = some (8, g8.map decodeMapStd, z ++ List.replicate p 61, false) := by
        conv_lhs => rw [← hsplit, List.append_assoc]
        rw [readQuantum_syms g8 8 0 (z ++ List.replicate p 61) []
          (fun c hc => hg c (by rw [← hsplit]; exact List.mem_append_left _ hc))
          (by omega)]
        rw [hlen8]
        rfl
      rw [hq]
      have hzg : ∀ c ∈ z, decodeMapStd c ≠ 255 := fun c hc =>
        hg c (by rw [← hsplit]; exact List.mem_append_right _ hc)
      have hglen : g.length = 8 + z.length := by
        rw [← hsplit, List.length_append, hlen8]
      have hrec := ih z p hzg (by omega) (by omega)
      show (match decodeLoop f (z ++ List.replicate p 61) with
        | none => none
        | some bs => some (quantumBytes 8 (g8.map decodeMapStd) ++ bs)) = _
      rw [hrec]
      by_cases hcond : g.length % 8 = 1 ∨ g.length % 8 = 3 ∨ g.length % 8 = 6
      · rw [if_pos (show z.length % 8 = 1 ∨ z.length % 8 = 3 ∨ z.length % 8 = 6 by omega),
          if_pos hcond]
      · rw [if_neg (show ¬(z.length % 8 = 1 ∨ z.length % 8 = 3 ∨ z.length % 8 = 6) by omega),
          if_neg hcond]
        have hacc : accumBits (g.map decodeMapStd) 0 0
            = quantumBytes 8 (g8.map decodeMapStd) ++ accumBits (z.map decodeMapStd) 0 0 := by
          rw [← hsplit, List.map_append]
          refine accum_block8 (g8.map decodeMapStd) (by simp [hlen8]) ?_ (z.map decodeMapStd)
          intro u hu
          obtain ⟨c, hc, rfl⟩ := List.mem_map.mp hu
          exact decodeMapStd_lt32 (hg c (by rw [← hsplit]; exact List.mem_append_left _ hc))
        rw [hacc]
    · push_neg at h8
      by_cases hg0 : g.length = 0
      · have hgnil : g = [] := List.length_eq_zero.mp hg0
        subst hgnil
        have hp0 : p = 0 := by simpa using hp
        subst hp0
        simp [decodeLoop_nil, accumBits]
      · have hp' : p = 8 - g.length := by omega
        subst hp'
        have hne : g ++ List.replicate (8 - g.length) 61 ≠ [] := by
          intro hq
          rcases List.append_eq_nil.mp hq with ⟨h1, _⟩
          exact hg0 (by rw [h1]; rfl)
        rw [decodeLoop_step f _ hne]
        have hq0 : readQuantum 8 0 (g ++ List.replicate (8 - g.length) 61) []
            = readQuantum (8 - g.length) g.length (List.replicate (8 - g.length) 61)
                (g.map decodeMapStd) := by
          rw [readQuantum_syms g 8 0 _ [] hg (by omega)]
          simp
        rw [hq0]
        have hb32 : ∀ u ∈ g.map decodeMapStd, u < 32 := by
          intro u hu
          obtain ⟨c, hc, rfl⟩ := List.mem_map.mp hu
          exact decodeMapStd_lt32 (hg c hc)
        have hmlen : (g.map decodeMapStd).length = g.length := List.length_map _ _
        have hcase : g.length = 1 ∨ g.length = 2 ∨ g.length = 3 ∨ g.length = 4
            ∨ g.length = 5 ∨ g.length = 6 ∨ g.length = 7 := by omega
        rcases hcase with h | h | h | h | h | h | h
        · rw [h]
          norm_num
          rw [readQuantum_pads1]
        · rw [h]
          norm_num
          rw [readQuantum_pads2]
          show some (quantumBytes 2 (g.map decodeMapStd))
            = some (accumBits (g.map decodeMapStd) 0 0)
          rw [accum_block2 (g.map decodeMapStd) (by rw [hmlen, h]) hb32]
        · rw [h]
          norm_num
          rw [readQuantum_pads3]
        · rw [h]
          norm_num
          rw [readQuantum_pads4]
          show some (quantumBytes 4 (g.map decodeMapStd))
            = some (accumBits (g.map decodeMapStd) 0 0)
          rw [accum_block4 (g.map decodeMapStd) (by rw [hmlen, h]) hb32]
        · rw [h]
          norm_num
          rw [readQuantum_pads5]
          show some (quantumBytes 5 (g.map decodeMapStd))
            = some (accumBits (g.map decodeMapStd) 0 0)
          rw [accum_block5 (g.map decodeMapStd) (by rw [hmlen, h]) hb32]
        · rw [h]
          norm_num
          rw [readQuantum_pads6]
        · rw [h]
          norm_num
          rw [readQuantum_pads7]
          show some (quantumBytes 7 (g.map decodeMapStd))
            = some (accumBits (g.map decodeMapStd) 0 0)
          rw [accum_block7 (g.map decodeMapStd) (by rw [hmlen, h]) hb32]

/-- C6 counterexample: on the input `MF<TAB>RA` the claim-side decoder that
strips all whitespace succeeds (it reads `MFRA` and decodes to the bytes of
`ab`), while the implementation strips only spaces, keeps the tab, and
fails. -/
theorem decodeBase32_whitespace_cex :
    decodeBase32 [77, 70, 9, 82, 65] = none
    ∧ decodeBase32Claim [77, 70, 9, 82, 65] = some [97, 98]
    ∧ decodeBase32 [77, 70, 9, 82, 65] ≠ decodeBase32Claim [77, 70, 9, 82, 65] :=
  ⟨by decide, by decide, by decide⟩

/-- C6 amended: `decodeBase32` normalizes by uppercasing, stripping ASCII
spaces only (not all whitespace, as the counterexample shows; the decoder
additionally ignores CR and LF), and right-padding with `=` to a multiple
of 8; on a normalized input made of alphabet symbols it decodes by
MSB-first 5-bit accumulation into bytes exactly when the symbol count
leaves a residue mod 8 admitting valid padding (0, 2, 4, 5, 7), and fails
with the invalid-secret error on the residues 1, 3, 6, which are rejected
as malformed. -/
theorem decodeBase32_amended (s x : List Nat)
    (hxdef : x = (s.filter fun c => !(c == 32)).map goUpper)
    (hx : ∀ c ∈ x, decodeMapStd c ≠ 255) :
    ((x.length % 8 = 1 ∨ x.length % 8 = 3 ∨ x.length % 8 = 6) → decodeBase32 s = none)
    ∧ ((x.length % 8 = 0 ∨ x.length % 8 = 2 ∨ x.length % 8 = 4 ∨ x.length % 8 = 5
          ∨ x.length % 8 = 7)
        → decodeBase32 s = some (accumBits (x.map decodeMapStd) 0 0)) := by
  have hnl : ∀ c ∈ x, (!(c == 10 || c == 13)) = true := by
    intro c hc
    have h255 := hx c hc
    have h10 : c ≠ 10 := by
      intro hcc
      rw [hcc] at h255
      exact h255 (by decide)
    have h13 : c ≠ 13 := by
      intro hcc
      rw [hcc] at h255
      exact h255 (by decide)
    simp [h10, h13]
  have hcore : decodeBase32 s
      = if x.length % 8 = 1 ∨ x.length % 8 = 3 ∨ x.length % 8 = 6 then none
        else some (accumBits (x.map decodeMapStd) 0 0) := by
    simp only [decodeBase32, stdDecodeString, ← hxdef]
    by_cases h0 : x.length % 8 = 0
    · rw [if_pos h0]
      have hfx : (x.filter fun c => !(c == 10 || c == 13)) = x :=
        List.filter_eq_self.mpr hnl
      rw [hfx]
      have hc := decodeLoop_canonical x.length x 0 hx (by omega) (by omega)
      simpa using hc
    · rw [if_neg h0]
      have hfx : ((x ++ List.replicate (8 - x.length % 8) 61).filter
            fun c => !(c == 10 || c == 13))
          = x ++ List.replicate (8 - x.length % 8) 61 := by
        apply List.filter_eq_self.mpr
        intro a ha
        rcases List.mem_append.mp ha with ha | ha
        · exact hnl a ha
        · have ha61 : a = 61 := List.eq_of_mem_replicate ha
          subst ha61
          decide
      rw [hfx]
      have hlen : (x ++ List.replicate (8 - x.length % 8) 61).length
          = x.length + (8 - x.length % 8) := by simp
      rw [hlen]
      have hc := decodeLoop_canonical (x.length + (8 - x.length % 8)) x
        (8 - x.length % 8) hx (by omega) (by omega)
      exact hc
  constructor
  · intro hcond
    rw [hcore, if_pos hcond]
  · intro hcond
    rw [hcore, if_neg (by omega)]

/-- Witness for the amended C6 on the input `mf ra` (lowercase with a
space), whose normalization is `MFRA` and which decodes to the bytes of
`ab`. -/
theorem decodeBase32_amended_witness :
    (([77, 70, 82, 65] : List Nat).length % 8 = 1 ∨ ([77, 70, 82, 65] : List Nat).length % 8 = 3
        ∨ ([77, 70, 82, 65] : List Nat).length % 8 = 6 → decodeBase32 [109, 102, 32, 114, 97] = none)
    ∧ (([77, 70, 82, 65] : List Nat).length % 8 = 0 ∨ ([77, 70, 82, 65] : List Nat).length % 8 = 2
        ∨ ([77, 70, 82, 65] : List Nat).length % 8 = 4 ∨ ([77, 70, 82, 65] : List Nat).length % 8 = 5
        ∨ ([77, 70, 82, 65] : List Nat).length % 8 = 7
        → decodeBase32 [109, 102, 32, 114, 97]
            = some (accumBits (([77, 70, 82, 65] : List Nat).map decodeMapStd) 0 0)) :=
  decodeBase32_amended [109, 102, 32, 114, 97] [77, 70, 82, 65] (by decide) (by decide)

/-- C8: when `decodeBase32` succeeds, the key bytes are empty exactly when
the effective input (what survives the space stripping and the decoder's
newline stripping, after uppercasing) is empty: a nonempty effective input
that decodes successfully always yields at least one key byte. -/
theorem decodeBase32_nonempty (s bs : List Nat) (h : decodeBase32 s = some bs) :
    (bs = [] ↔ effectiveInput s = []) := by
  simp only [decodeBase32, stdDecodeString] at h
  set x := (s.filter fun c => !(c == 32)).map goUpper with hx
  have heff : effectiveInput s = x.filter fun c => !(c == 10 || c == 13) := rfl
  by_cases h0 : x.length % 8 = 0
  · rw [if_pos h0] at h
    constructor
    · intro hbs
      subst hbs
      by_contra hne
      rw [heff] at hne
      exact decodeLoop_ne_nil _ _ _ h hne rfl
    · intro heq
      have hsrc : (x.filter fun c => !(c == 10 || c == 13)) = [] := by
        rw [← heff]
        exact heq
      rw [hsrc] at h
      rw [decodeLoop_nil] at h
      simpa using h.symm
  · rw [if_neg h0] at h
    have hfsplit : ((x ++ List.replicate (8 - x.length % 8) 61).filter
          fun c => !(c == 10 || c == 13))
        = (x.filter fun c => !(c == 10 || c == 13))
            ++ List.replicate (8 - x.length % 8) 61 := by
      rw [List.filter_append]
      congr 1
      apply List.filter_eq_self.mpr
      intro a ha
      have ha61 : a = 61 := List.eq_of_mem_replicate ha
      subst ha61
      decide
    rw [hfsplit] at h
    have hpadsne : (x.filter fun c => !(c == 10 || c == 13))
        ++ List.replicate (8 - x.length % 8) 61 ≠ [] := by
      intro hq
      rcases List.append_eq_nil.mp hq with ⟨-, h2⟩
      have := congrArg List.length h2
      simp at this
      omega
    have hbsne : bs ≠ [] := decodeLoop_ne_nil _ _ _ h hpadsne
    have heffne : effectiveInput s ≠ [] := by
      intro heq
      rw [heff] at heq
      rw [heq] at h
      simp only [List.nil_append] at h
      have hrep : List.replicate (8 - x.length % 8) 61
          = 61 :: List.replicate (8 - x.length % 8 - 1) 61 := by
        cases hcc : (8 - x.length % 8) with
        | zero => omega
        | succ n => simp [List.replicate_succ]
      rw [hrep, decodeLoop_pad_head] at h
      exact Option.noConfusion h
    constructor
    · intro hbs
      exact absurd hbs hbsne
    · intro heq
      exact absurd heq heffne

/-- Witness for C8 on the secret `MFRA`, which decodes to two bytes. -/
theorem decodeBase32_nonempty_witness :
    (([97, 98] : List Nat) = [] ↔ effectiveInput [77, 70, 82, 65] = []) :=
  decodeBase32_nonempty [77, 70, 82, 65] [97, 98] (by decide)

end Spec2Proof
